import Mathlib

/-!
Shallow embedding of `src/framebuffer.cc` (timg's `Framebuffer` unit):
pixel storage and addressing, color-string parsing (`ParseColor`) and
alpha compositing (`AlphaComposeBackground`), together with proofs of the
specification claims about them.

Modelling conventions:
* `rgba_t` (a `uint32_t` produced by `htole32`) is modelled as a `Nat`
  holding the little-endian-interpreted 32-bit value; `le32toh`/`htole32`
  are the identity on this value model, and the in-memory byte sequence of
  a stored pixel is recovered by `bytesLE`.
* unsigned C arithmetic is `Nat` arithmetic with `% 2^32` where a value
  could exceed 32 bits (the blend arithmetic itself stays below `2^32`,
  see the bound remarks at `AlphaBlend`);
* `sqrtf` applied to a nonnegative integer argument and truncated back to
  an unsigned integer is modelled by the integer square root (`isqrt`,
  proved equal to `Nat.sqrt`): every argument arising in `AlphaBlend` is
  an integer at most `255*255 = 65025 < 2^24`, hence exactly representable
  as a `float`, and the correctly rounded single-precision square root of
  such an integer truncates to the integer square root;
* `assert` failures and early returns are modelled by an `Option` result
  (`none` = assertion failure / aborted call);
* the `fprintf(stderr, ...)` diagnostic of `ParseColor` is modelled by a
  boolean `diagnostic` flag in its result.
-/

namespace Timg

/-- Pixel store of `framebuffer.cc`: `width_`, `height_` and the contiguous
row-major `pixels_` array of packed `rgba_t` values (flat index
`width_ * y + x`). -/
structure Framebuffer where
  width : Nat
  height : Nat
  pixels : List Nat
deriving DecidableEq, Repr

/-- Well-formedness invariant established by the constructor: the pixel
array has exactly `width * height` entries. -/
def Framebuffer.Wf (fb : Framebuffer) : Prop :=
  fb.pixels.length = fb.width * fb.height

instance (fb : Framebuffer) : Decidable fb.Wf := by
  unfold Framebuffer.Wf; infer_instance

/-- Embedding of `Framebuffer::to_rgba(r, g, b, a)`: the channel arguments
are `uint8_t` (hence the `% 256`, modelling the C implicit conversion) and
the packed value is `r | g << 8 | b << 16 | a << 24`; `htole32` is the
identity on the value model. -/
def to_rgba (r g b a : Nat) : Nat :=
  (r % 256) + (g % 256) * 2 ^ 8 + (b % 256) * 2 ^ 16 + (a % 256) * 2 ^ 24

/-- Memory bytes of a stored 32-bit pixel. `to_rgba` stores the packed
word with `htole32`, so the byte at offset `i` is `(v >> 8*i) & 0xff`
regardless of host byte order. -/
def bytesLE (v : Nat) : List Nat :=
  [v % 256, v / 2 ^ 8 % 256, v / 2 ^ 16 % 256, v / 2 ^ 24 % 256]

/-- Embedding of `Framebuffer::SetPixel(x, y, value)`: out-of-range
coordinates are silently dropped, otherwise `pixels_[width_ * y + x]` is
overwritten. -/
def Framebuffer.SetPixel (fb : Framebuffer) (x y : Int) (value : Nat) :
    Framebuffer :=
  if x < 0 ∨ (fb.width : Int) ≤ x ∨ y < 0 ∨ (fb.height : Int) ≤ y then fb
  else { fb with pixels := fb.pixels.set (fb.width * y.toNat + x.toNat) value }

/-- Embedding of `Framebuffer::at(x, y)` (the pixel read used by
`GetPixel`): returns `pixels_[width_ * y + x]`. The source `assert`s
`0 <= x < width && 0 <= y < height`; all theorems below use it only under
that precondition (the `getD` default is never exercised there). -/
def Framebuffer.at (fb : Framebuffer) (x y : Int) : Nat :=
  fb.pixels.getD (fb.width * y.toNat + x.toNat) 0

/-- Embedding of `Framebuffer::Clear()`: `memset` of the whole pixel array
to zero. -/
def Framebuffer.Clear (fb : Framebuffer) : Framebuffer :=
  { fb with pixels := List.replicate fb.pixels.length 0 }

/-- Fuel-driven digit-by-digit integer square root. `Nat.sqrt` in this
toolchain is defined by well-founded recursion and does not reduce inside
`decide`; the blend model therefore uses this structurally recursive,
kernel-reducible equivalent (`isqrt_eq` proves they agree), so concrete
compositing calls can be evaluated in witnesses. -/
def isqrtFuel : Nat → Nat → Nat
  | 0, _ => 0
  | fuel + 1, n =>
    if n = 0 then 0
    else
      let s := isqrtFuel fuel (n / 4)
      if (2 * s + 1) * (2 * s + 1) ≤ n then 2 * s + 1 else 2 * s

/-- Integer square root (truncated), computable by the kernel. -/
def isqrt (n : Nat) : Nat := isqrtFuel n n

/-- Embedding of the file-static `AlphaBlend(bg, c)`: `bg` is the
linear-light backdrop triple (already squared channels), `c` the stored
pixel. `le32toh` is the identity in the value model, so both `col` and the
`c >> 24` alpha read come from the same value. All intermediate products
stay below `2^32` whenever `bg` holds squared 8-bit channels
(`fgc*fgc*alpha + bg*(255-alpha) ≤ 65025*255 + 65025*255 < 2^32`), so the
`uint32_t` arithmetic is plain `Nat` arithmetic; `sqrtf` truncated to
`uint32_t` is the integer square root `isqrt` (argument ≤ 65025, see the
file header). -/
def AlphaBlend (bg : Nat × Nat × Nat) (c : Nat) : Nat :=
  let col := c % 2 ^ 32
  let alpha := col / 2 ^ 24
  if alpha = 255 then c
  else
    let fgc0 := col % 256
    let fgc1 := col / 2 ^ 8 % 256
    let fgc2 := col / 2 ^ 16 % 256
    to_rgba
      (isqrt ((fgc0 * fgc0 * alpha + bg.1 * (255 - alpha)) / 255))
      (isqrt ((fgc1 * fgc1 * alpha + bg.2.1 * (255 - alpha)) / 255))
      (isqrt ((fgc2 * fgc2 * alpha + bg.2.2 * (255 - alpha)) / 255))
      255

/-- Flat traversal of the pixel array done by the `pos++` double loop of
`AlphaComposeBackground`: the pixel with flat index `idx` sits at
`x = idx % w`, `y = idx / w`, and is blended against
`bg_choice[(x + y) % 2]`. -/
def blendAll (w : Nat) (bg_choice : Nat → Nat × Nat × Nat) :
    Nat → List Nat → List Nat
  | _, [] => []
  | idx, p :: rest =>
      AlphaBlend (bg_choice ((idx % w + idx / w) % 2)) p ::
        blendAll w bg_choice (idx + 1) rest

/-- Embedding of `Framebuffer::AlphaComposeBackground(bgcolor,
pattern_col)`. A background alpha of `0` returns immediately with the
store untouched; the subsequent `assert(bg_alpha == 0xff)` is modelled by
`none` (aborted call) for any other non-255 alpha. Otherwise the squared
("linear") backdrop triples are prepared, `bg_choice[1]` is the pattern
only if the pattern is fully opaque, and every pixel is blended in
place. -/
def Framebuffer.AlphaComposeBackground (fb : Framebuffer)
    (bgcolor pattern_col : Nat) : Option Framebuffer :=
  let bcol := bgcolor % 2 ^ 32
  let bg_alpha := bcol / 2 ^ 24
  if bg_alpha = 0 then some fb
  else if bg_alpha ≠ 255 then none
  else
    let linear_bg : Nat × Nat × Nat :=
      ((bcol % 256) * (bcol % 256),
       (bcol / 2 ^ 8 % 256) * (bcol / 2 ^ 8 % 256),
       (bcol / 2 ^ 16 % 256) * (bcol / 2 ^ 16 % 256))
    let pcol := pattern_col % 2 ^ 32
    let bg_choice : Nat → Nat × Nat × Nat :=
      if pcol / 2 ^ 24 = 255 then
        let linear_pat : Nat × Nat × Nat :=
          ((pcol % 256) * (pcol % 256),
           (pcol / 2 ^ 8 % 256) * (pcol / 2 ^ 8 % 256),
           (pcol / 2 ^ 16 % 256) * (pcol / 2 ^ 16 % 256))
        fun i => if i = 0 then linear_bg else linear_pat
      else fun _ => linear_bg
    some { fb with pixels := blendAll fb.width bg_choice 0 fb.pixels }

/-- Linear-light representation of a pixel value: each 8-bit channel
squared (the triple `linear_bg` / `linear_pattern` computes in the
source). -/
def linear3 (c : Nat) : Nat × Nat × Nat :=
  ((c % 2 ^ 32 % 256) * (c % 2 ^ 32 % 256),
   (c % 2 ^ 32 / 2 ^ 8 % 256) * (c % 2 ^ 32 / 2 ^ 8 % 256),
   (c % 2 ^ 32 / 2 ^ 16 % 256) * (c % 2 ^ 32 / 2 ^ 16 % 256))

/-- Backdrop selected for parity `i` (`i = (x + y) % 2`): the pattern only
when the pattern pixel is fully opaque and `i ≠ 0`, the background
otherwise — the contents of the source's `bg_choice` array. -/
def bgChoiceSpec (bgcolor pattern_col : Nat) (i : Nat) : Nat × Nat × Nat :=
  if pattern_col % 2 ^ 32 / 2 ^ 24 = 255 ∧ i ≠ 0 then linear3 pattern_col
  else linear3 bgcolor

/-- Alpha channel of a stored pixel value (`c >> 24` on the `uint32_t`). -/
def alphaOf (c : Nat) : Nat := c % 2 ^ 32 / 2 ^ 24

/-- Channel `i` (0 = red, 1 = green, 2 = blue) of a stored pixel value
(`(c >> 8*i) & 0xff`). -/
def chanOf (c i : Nat) : Nat := c % 2 ^ 32 / 2 ^ (8 * i) % 256

/-- ASCII-wise case-insensitive character-list equality, the
`strcasecmp(a, b) == 0` test used for the named-color lookup. -/
def caseEqChars : List Char → List Char → Bool
  | [], [] => true
  | a :: as, b :: bs => (a.toLower == b.toLower) && caseEqChars as bs
  | _, _ => false

/-- Case-insensitive string equality (`strcasecmp == 0`). -/
def strcasecmpEq (a b : String) : Bool := caseEqChars a.data b.data

/-- Modelled from the spec: the static named-color table
(`html-colors.inc`) is not among the provided sources. Per the spec it is
a static, read-only, case-insensitive map from color names to canonical
`#rrggbb` strings; the documented example entry `red ↦ #ff0000` is the one
the claims exercise. -/
def html_colors : List (String × String) := [("red", "#ff0000")]

/-- Whitespace in the sense of `isspace` / a scanf whitespace directive:
space, tab, newline, carriage return, vertical tab, form feed. -/
def isScanfSpace (c : Char) : Bool :=
  c = ' ' || c = '\t' || c = '\n' || c = '\r' ||
    c = Char.ofNat 11 || c = Char.ofNat 12

/-- Longest whitespace run skip (scanf whitespace directive, and the
implicit skip before a numeric conversion). -/
def skipWS : List Char → List Char
  | [] => []
  | c :: rest => if isScanfSpace c then skipWS rest else c :: rest

/-- Value of a hexadecimal digit character, if it is one. -/
def hexVal (c : Char) : Option Nat :=
  if '0' ≤ c ∧ c ≤ '9' then some (c.toNat - '0'.toNat)
  else if 'a' ≤ c ∧ c ≤ 'f' then some (c.toNat - 'a'.toNat + 10)
  else if 'A' ≤ c ∧ c ≤ 'F' then some (c.toNat - 'A'.toNat + 10)
  else none

/-- Value of a decimal digit character, if it is one. -/
def decVal (c : Char) : Option Nat :=
  if '0' ≤ c ∧ c ≤ '9' then some (c.toNat - '0'.toNat) else none

/-- Maximal run of decimal digits, accumulating the value. -/
def decDigits : List Char → Nat → Nat × List Char
  | [], acc => (acc, [])
  | c :: rest, acc =>
    match decVal c with
    | some v => decDigits rest (10 * acc + v)
    | none => (acc, c :: rest)

/-- Maximal run of hexadecimal digits, accumulating the value. -/
def hexDigits : List Char → Nat → Nat × List Char
  | [], acc => (acc, [])
  | c :: rest, acc =>
    match hexVal c with
    | some v => hexDigits rest (16 * acc + v)
    | none => (acc, c :: rest)

/-- scanf literal (non-whitespace) format character: matches exactly the
next input character. -/
def litChar (ch : Char) : List Char → Option (List Char)
  | c :: rest => if c = ch then some rest else none
  | [] => none

/-- scanf `%02x` conversion: whitespace skip, then one or two hexadecimal
digits (the claims never exercise a `0x` prefix squeezed into the 2-char
field, so only plain digits are modelled). -/
def scanHex2 (s : List Char) : Option (Nat × List Char) :=
  match skipWS s with
  | [] => none
  | c1 :: r1 =>
    match hexVal c1 with
    | none => none
    | some v1 =>
      match r1 with
      | c2 :: r2 =>
        match hexVal c2 with
        | some v2 => some (16 * v1 + v2, r2)
        | none => some (v1, c2 :: r2)
      | [] => some (v1, [])

/-- scanf `%d` conversion: whitespace skip, optional sign, at least one
decimal digit, longest-match. -/
def scanDec (s : List Char) : Option (Int × List Char) :=
  match skipWS s with
  | '-' :: rest =>
    match rest with
    | c :: _ =>
      match decVal c with
      | some _ =>
        match decDigits rest 0 with
        | (v, r) => some (-(v : Int), r)
      | none => none
    | [] => none
  | '+' :: rest =>
    match rest with
    | c :: _ =>
      match decVal c with
      | some _ =>
        match decDigits rest 0 with
        | (v, r) => some ((v : Int), r)
      | none => none
    | [] => none
  | c :: rest =>
    match decVal c with
    | some _ =>
      match decDigits (c :: rest) 0 with
      | (v, r) => some ((v : Int), r)
    | none => none
  | [] => none

/-- scanf `%x` conversion as used after a literal `0x` in the format:
whitespace skip, optional extra `0x`/`0X` prefix, at least one hex digit,
longest-match (a sign is not modelled; no claim input carries one). -/
def scanHex (s : List Char) : Option (Nat × List Char) :=
  match skipWS s with
  | [] => none
  | c :: rest =>
    if c = '0' then
      match rest with
      | x :: c2 :: rest2 =>
        if (x = 'x' ∨ x = 'X') ∧ (hexVal c2).isSome then
          some (hexDigits (c2 :: rest2) 0)
        else some (hexDigits (c :: rest) 0)
      | _ => some (hexDigits (c :: rest) 0)
    else
      match hexVal c with
      | some _ => some (hexDigits (c :: rest) 0)
      | none => none

/-- First sscanf attempt of `ParseColor`: format `"#%02x%02x%02x"`;
`some` exactly when all three conversions succeed (return value 3). The
trailing input is irrelevant to the return value. -/
def scanHashColor (s : List Char) : Option (Nat × Nat × Nat) :=
  match litChar '#' s with
  | none => none
  | some s1 =>
    match scanHex2 s1 with
    | none => none
    | some (r, s2) =>
      match scanHex2 s2 with
      | none => none
      | some (g, s3) =>
        match scanHex2 s3 with
        | none => none
        | some (b, _) => some (r, g, b)

/-- Second sscanf attempt: format `"rgb(%d, %d, %d)"`; `some` exactly when
the three `%d` conversions are all assigned (return value 3) — whether the
closing `)` matches cannot change the return value, so it is not
examined. -/
def scanRgbDec (s : List Char) : Option (Int × Int × Int) :=
  match litChar 'r' s with
  | none => none
  | some s1 =>
    match litChar 'g' s1 with
    | none => none
    | some s2 =>
      match litChar 'b' s2 with
      | none => none
      | some s3 =>
        match litChar '(' s3 with
        | none => none
        | some s4 =>
          match scanDec s4 with
          | none => none
          | some (r, s5) =>
            match litChar ',' s5 with
            | none => none
            | some s6 =>
              match scanDec (skipWS s6) with
              | none => none
              | some (g, s7) =>
                match litChar ',' s7 with
                | none => none
                | some s8 =>
                  match scanDec (skipWS s8) with
                  | none => none
                  | some (b, _) => some (r, g, b)

/-- Third sscanf attempt: format `"rgb(0x%x, 0x%x, 0x%x)"`; `some` exactly
when the three `%x` conversions are all assigned. -/
def scanRgbHex (s : List Char) : Option (Nat × Nat × Nat) :=
  match litChar 'r' s with
  | none => none
  | some s1 =>
    match litChar 'g' s1 with
    | none => none
    | some s2 =>
      match litChar 'b' s2 with
      | none => none
      | some s3 =>
        match litChar '(' s3 with
        | none => none
        | some s4 =>
          match litChar '0' s4 with
          | none => none
          | some s5 =>
            match litChar 'x' s5 with
            | none => none
            | some s6 =>
              match scanHex s6 with
              | none => none
              | some (r, s7) =>
                match litChar ',' s7 with
                | none => none
                | some s8 =>
                  match litChar '0' (skipWS s8) with
                  | none => none
                  | some s9 =>
                    match litChar 'x' s9 with
                    | none => none
                    | some s10 =>
                      match scanHex s10 with
                      | none => none
                      | some (g, s11) =>
                        match litChar ',' s11 with
                        | none => none
                        | some s12 =>
                          match litChar '0' (skipWS s12) with
                          | none => none
                          | some s13 =>
                            match litChar 'x' s13 with
                            | none => none
                            | some s14 =>
                              match scanHex s14 with
                              | none => none
                              | some (b, _) => some (r, g, b)

/-- Short-circuit `sscanf(..) == 3 || sscanf(..) == 3 || sscanf(..) == 3`
cascade of `ParseColor`: the first successful attempt wins. The `%d`
values are stored through a `uint32_t` object, modelled by
a nonnegative remainder `% 2 ^ 32` followed by `toNat`. -/
def parseNumeric (color : String) : Option (Nat × Nat × Nat) :=
  match scanHashColor color.data with
  | some (r, g, b) => some (r, g, b)
  | none =>
    match scanRgbDec color.data with
    | some (r, g, b) =>
      some ((r % (2 ^ 32 : Int)).toNat, (g % (2 ^ 32 : Int)).toNat,
        (b % (2 ^ 32 : Int)).toNat)
    | none => scanRgbHex color.data

/-- Result of `ParseColor`: the returned pixel and whether the
`fprintf(stderr, "Couldn't parse color ...")` diagnostic was emitted. -/
structure ParseResult where
  pixel : Nat
  diagnostic : Bool
deriving DecidableEq, Repr

/-- Embedding of `Framebuffer::ParseColor(color)`. A null pointer
(`none`) returns transparent black immediately; otherwise the text is
first substituted by its named-color translation if the table matches
case-insensitively, then the three sscanf attempts run in order; on
success the pixel is packed with alpha forced to `0xff`, on failure the
diagnostic is emitted and transparent black is returned. -/
def ParseColor (color : Option String) : ParseResult :=
  match color with
  | none => { pixel := to_rgba 0 0 0 0, diagnostic := false }
  | some color0 =>
    let color :=
      match html_colors.find? (fun c => strcasecmpEq color0 c.1) with
      | some c => c.2
      | none => color0
    match parseNumeric color with
    | some (r, g, b) => { pixel := to_rgba r g b 0xff, diagnostic := false }
    | none => { pixel := to_rgba 0 0 0 0, diagnostic := true }

/-- C6: for channel values `r, g, b, a` in `[0,255]`, the in-memory byte
sequence of `PackPixel(r,g,b,a)` (= `to_rgba`) is exactly `[r, g, b, a]`:
byte 0 = red, byte 1 = green, byte 2 = blue, byte 3 = alpha, independent of
host byte order. -/
theorem to_rgba_bytesLE (r g b a : Nat)
    (hr : r < 256) (hg : g < 256) (hb : b < 256) (ha : a < 256) :
    bytesLE (to_rgba r g b a) = [r, g, b, a] := by
  unfold bytesLE to_rgba
  rw [Nat.mod_eq_of_lt hr, Nat.mod_eq_of_lt hg, Nat.mod_eq_of_lt hb,
    Nat.mod_eq_of_lt ha]
  norm_num
  omega

theorem to_rgba_bytesLE_witness :
    11 < 256 ∧ 22 < 256 ∧ 33 < 256 ∧ 255 < 256 ∧
      bytesLE (to_rgba 11 22 33 255) = [11, 22, 33, 255] :=
  ⟨by decide, by decide, by decide, by decide,
    to_rgba_bytesLE 11 22 33 255 (by decide) (by decide) (by decide)
      (by decide)⟩

/-- C7: writing a pixel at in-bounds coordinates and reading the same
coordinates back returns exactly the written value. -/
theorem setPixel_at (fb : Framebuffer) (x y : Int) (p : Nat)
    (hwf : fb.Wf) (hx0 : 0 ≤ x) (hx : x < (fb.width : Int))
    (hy0 : 0 ≤ y) (hy : y < (fb.height : Int)) :
    (fb.SetPixel x y p).at x y = p := by
  unfold Framebuffer.SetPixel Framebuffer.at
  rw [if_neg (by push_neg; exact ⟨hx0, hx, hy0, hy⟩)]
  have hxw : x.toNat < fb.width := by omega
  have hyh : y.toNat < fb.height := by omega
  have hidx : fb.width * y.toNat + x.toNat < fb.pixels.length := by
    rw [hwf]
    calc fb.width * y.toNat + x.toNat < fb.width * y.toNat + fb.width := by
          omega
      _ = fb.width * (y.toNat + 1) := by ring
      _ ≤ fb.width * fb.height := Nat.mul_le_mul_left _ (by omega)
  have h2 : fb.width * y.toNat + x.toNat <
      (fb.pixels.set (fb.width * y.toNat + x.toNat) p).length := by
    simpa using hidx
  rw [List.getD_eq_getElem _ _ h2, List.getElem_set_self h2]

theorem setPixel_at_witness :
    (Framebuffer.Wf ⟨2, 2, [0, 0, 0, 0]⟩ ∧ (0 : Int) ≤ 1 ∧ (1 : Int) < 2) ∧
      (Framebuffer.SetPixel ⟨2, 2, [0, 0, 0, 0]⟩ 1 0 77).at 1 0 = 77 :=
  ⟨⟨by decide, by decide, by decide⟩,
    setPixel_at ⟨2, 2, [0, 0, 0, 0]⟩ 1 0 77 (by decide) (by decide)
      (by decide) (by decide) (by decide)⟩

/-- C8: a `SetPixel` at coordinates outside `[0,width) × [0,height)` is a
no-op: the returned store is the unchanged one (so no in-bounds pixel
changes), and the model emits no error or diagnostic of any kind. -/
theorem setPixel_out_of_bounds (fb : Framebuffer) (x y : Int) (p : Nat)
    (h : ¬(0 ≤ x ∧ x < (fb.width : Int) ∧ 0 ≤ y ∧ y < (fb.height : Int))) :
    fb.SetPixel x y p = fb := by
  unfold Framebuffer.SetPixel
  rw [if_pos (by omega)]

theorem setPixel_out_of_bounds_witness :
    ¬((0 : Int) ≤ -1 ∧ (-1 : Int) < 2 ∧ (0 : Int) ≤ 0 ∧ (0 : Int) < 2) ∧
      Framebuffer.SetPixel ⟨2, 2, [5, 6, 7, 8]⟩ (-1) 0 99 = ⟨2, 2, [5, 6, 7, 8]⟩ :=
  ⟨by decide,
    setPixel_out_of_bounds ⟨2, 2, [5, 6, 7, 8]⟩ (-1) 0 99 (by decide)⟩

theorem isqrtFuel_eq (fuel : Nat) :
    ∀ n : Nat, n ≤ fuel → isqrtFuel fuel n = Nat.sqrt n := by
  induction fuel with
  | zero =>
    intro n hn
    have h0 : n = 0 := by omega
    subst h0
    simp [isqrtFuel]
  | succ fuel ih =>
    intro n hn
    by_cases h0 : n = 0
    · subst h0; simp [isqrtFuel]
    · have h4 : n / 4 ≤ fuel := by omega
      have hs := ih (n / 4) h4
      simp only [isqrtFuel, if_neg h0, hs]
      have hsl : Nat.sqrt (n / 4) * Nat.sqrt (n / 4) ≤ n / 4 := Nat.sqrt_le _
      have hsu : n / 4 < (Nat.sqrt (n / 4) + 1) * (Nat.sqrt (n / 4) + 1) :=
        Nat.lt_succ_sqrt _
      have hdm : 4 * (n / 4) + n % 4 = n := Nat.div_add_mod n 4
      have hm4 : n % 4 < 4 := Nat.mod_lt _ (by norm_num)
      by_cases hc : (2 * Nat.sqrt (n / 4) + 1) * (2 * Nat.sqrt (n / 4) + 1) ≤ n
      · rw [if_pos hc]
        rw [Nat.eq_sqrt]
        exact ⟨hc, by nlinarith⟩
      · rw [if_neg hc]
        rw [Nat.eq_sqrt]
        constructor
        · have h1 : 4 * ((n / 4).sqrt * (n / 4).sqrt) ≤ 4 * (n / 4) :=
            Nat.mul_le_mul_left 4 hsl
          calc 2 * (n / 4).sqrt * (2 * (n / 4).sqrt)
              = 4 * ((n / 4).sqrt * (n / 4).sqrt) := by ring
            _ ≤ 4 * (n / 4) := h1
            _ ≤ n := by omega
        · omega

theorem isqrt_eq (n : Nat) : isqrt n = Nat.sqrt n := isqrtFuel_eq n n le_rfl

theorem blendAll_length (w : Nat) (f : Nat → Nat × Nat × Nat) (idx : Nat)
    (l : List Nat) : (blendAll w f idx l).length = l.length := by
  induction l generalizing idx with
  | nil => rfl
  | cons p rest ih => simp [blendAll, ih]

theorem blendAll_getD (w : Nat) (f : Nat → Nat × Nat × Nat) (start : Nat)
    (l : List Nat) (i : Nat) (h : i < l.length) :
    (blendAll w f start l).getD i 0 =
      AlphaBlend (f (((start + i) % w + (start + i) / w) % 2)) (l.getD i 0) := by
  induction l generalizing start i with
  | nil => simp at h
  | cons p rest ih =>
    cases i with
    | zero => simp [blendAll]
    | succ n =>
      have hn : n < rest.length := by simpa using h
      have hstep := ih (start + 1) n hn
      have harith : start + 1 + n = start + (n + 1) := by omega
      rw [harith] at hstep
      simpa [blendAll] using hstep

theorem rowmajor_index_lt (w h x y : Nat) (hx : x < w) (hy : y < h) :
    w * y + x < w * h := by
  calc w * y + x < w * y + w := by omega
    _ = w * (y + 1) := by ring
    _ ≤ w * h := Nat.mul_le_mul_left _ (by omega)

/-- Opaque-background call of `AlphaComposeBackground`, rewritten through
`bgChoiceSpec`: the store is replaced by the `blendAll` traversal. -/
theorem alphaCompose_opaque_eq (fb : Framebuffer) (bgcolor pattern_col : Nat)
    (hbga : bgcolor % 2 ^ 32 / 2 ^ 24 = 255) :
    fb.AlphaComposeBackground bgcolor pattern_col =
      some { fb with
        pixels :=
          blendAll fb.width (bgChoiceSpec bgcolor pattern_col) 0 fb.pixels } := by
  simp only [Framebuffer.AlphaComposeBackground, hbga]
  rw [if_neg (by decide : ¬(255 : Nat) = 0),
    if_neg (by decide : ¬(255 : Nat) ≠ 255)]
  refine congrArg
    (fun g => some { fb with pixels := blendAll fb.width g 0 fb.pixels }) ?_
  funext i
  simp only [bgChoiceSpec]
  by_cases hp : pattern_col % 2 ^ 32 / 2 ^ 24 = 255 <;>
    by_cases hi : i = 0 <;>
      simp only [hp, hi, ne_eq, not_true_eq_false, not_false_eq_true,
        and_true, and_false, true_and, false_and, if_true, if_false,
        ite_true, ite_false] <;> rfl

/-- Per-pixel form: in an opaque-background call, the pixel at in-bounds
`(x, y)` of the result is the blend of the old pixel against
`bg_choice[(x + y) % 2]`. -/
theorem alphaCompose_at (fb fb2 : Framebuffer) (bgcolor pattern_col : Nat)
    (x y : Nat) (hwf : fb.Wf) (hx : x < fb.width) (hy : y < fb.height)
    (hbga : bgcolor % 2 ^ 32 / 2 ^ 24 = 255)
    (hc : fb.AlphaComposeBackground bgcolor pattern_col = some fb2) :
    fb2.at ↑x ↑y =
      AlphaBlend (bgChoiceSpec bgcolor pattern_col ((x + y) % 2))
        (fb.at ↑x ↑y) := by
  rw [alphaCompose_opaque_eq fb bgcolor pattern_col hbga] at hc
  have hfb2 := Option.some.injEq _ _ ▸ hc
  have hidx : fb.width * y + x < fb.pixels.length := by
    rw [hwf]; exact rowmajor_index_lt _ _ _ _ hx hy
  have hw0 : 0 < fb.width := by omega
  subst hfb2
  unfold Framebuffer.at
  simp only [Int.toNat_natCast]
  rw [blendAll_getD _ _ _ _ _ hidx]
  have h1 : (0 + (fb.width * y + x)) % fb.width = x := by
    rw [Nat.zero_add, Nat.mul_add_mod, Nat.mod_eq_of_lt hx]
  have h2 : (0 + (fb.width * y + x)) / fb.width = y := by
    rw [Nat.zero_add, Nat.mul_add_div hw0, Nat.div_eq_of_lt hx]
    omega
  rw [h1, h2]

theorem chanOf_zero (c : Nat) : chanOf c 0 = c % 2 ^ 32 % 256 := by
  unfold chanOf; norm_num

theorem chanOf_one (c : Nat) : chanOf c 1 = c % 2 ^ 32 / 2 ^ 8 % 256 := by
  unfold chanOf; norm_num

theorem chanOf_two (c : Nat) : chanOf c 2 = c % 2 ^ 32 / 2 ^ 16 % 256 := by
  unfold chanOf; norm_num

theorem linear3_fst (c : Nat) : (linear3 c).1 = chanOf c 0 * chanOf c 0 := by
  unfold linear3; rw [chanOf_zero]

theorem linear3_snd_fst (c : Nat) :
    (linear3 c).2.1 = chanOf c 1 * chanOf c 1 := by
  unfold linear3; rw [chanOf_one]

theorem linear3_snd_snd (c : Nat) :
    (linear3 c).2.2 = chanOf c 2 * chanOf c 2 := by
  unfold linear3; rw [chanOf_two]

theorem mul255_div (a : Nat) : a * 255 / 255 = a := by omega

/-- Blending a pixel that is already fully opaque returns it unchanged. -/
theorem alphaBlend_opaque (bg : Nat × Nat × Nat) (c : Nat)
    (h : alphaOf c = 255) : AlphaBlend bg c = c := by
  unfold alphaOf at h
  simp only [AlphaBlend]
  rw [if_pos h]

/-- Blending a not-fully-opaque pixel follows the linear-light formula of
the source, channel by channel. -/
theorem alphaBlend_formula (bg : Nat × Nat × Nat) (c : Nat)
    (h : alphaOf c ≠ 255) :
    AlphaBlend bg c =
      to_rgba
        (Nat.sqrt ((chanOf c 0 * chanOf c 0 * alphaOf c +
          bg.1 * (255 - alphaOf c)) / 255))
        (Nat.sqrt ((chanOf c 1 * chanOf c 1 * alphaOf c +
          bg.2.1 * (255 - alphaOf c)) / 255))
        (Nat.sqrt ((chanOf c 2 * chanOf c 2 * alphaOf c +
          bg.2.2 * (255 - alphaOf c)) / 255))
        255 := by
  unfold alphaOf at h
  simp only [AlphaBlend]
  rw [if_neg h]
  simp only [isqrt_eq, chanOf_zero, chanOf_one, chanOf_two, alphaOf]

/-- C5: a fully transparent background (`alpha == 0`) makes
`AlphaComposeBackground` return immediately; the store is byte-identical
to before the call, for every store state and every pattern pixel. -/
theorem alphaCompose_transparent_noop (fb : Framebuffer)
    (bgcolor pattern_col : Nat) (h : bgcolor % 2 ^ 32 / 2 ^ 24 = 0) :
    fb.AlphaComposeBackground bgcolor pattern_col = some fb := by
  unfold Framebuffer.AlphaComposeBackground
  rw [if_pos h]

theorem alphaCompose_transparent_noop_witness :
    to_rgba 10 20 30 0 % 2 ^ 32 / 2 ^ 24 = 0 ∧
      Framebuffer.AlphaComposeBackground ⟨1, 1, [12345]⟩
        (to_rgba 10 20 30 0) (to_rgba 1 2 3 255) = some ⟨1, 1, [12345]⟩ :=
  ⟨by decide,
    alphaCompose_transparent_noop ⟨1, 1, [12345]⟩ (to_rgba 10 20 30 0)
      (to_rgba 1 2 3 255) (by decide)⟩

/-- C9: a semi-transparent background (alpha neither 0 nor 255) fails the
`assert(bg_alpha == 0xff)` precondition check: the call aborts (`none`)
and the blend code path is never reached. -/
theorem alphaCompose_semitransparent_asserts (fb : Framebuffer)
    (bgcolor pattern_col : Nat)
    (h0 : bgcolor % 2 ^ 32 / 2 ^ 24 ≠ 0)
    (h255 : bgcolor % 2 ^ 32 / 2 ^ 24 ≠ 255) :
    fb.AlphaComposeBackground bgcolor pattern_col = none := by
  unfold Framebuffer.AlphaComposeBackground
  rw [if_neg h0, if_pos h255]

theorem alphaCompose_semitransparent_asserts_witness :
    (to_rgba 10 20 30 128 % 2 ^ 32 / 2 ^ 24 ≠ 0 ∧
        to_rgba 10 20 30 128 % 2 ^ 32 / 2 ^ 24 ≠ 255) ∧
      Framebuffer.AlphaComposeBackground ⟨1, 1, [12345]⟩
        (to_rgba 10 20 30 128) (to_rgba 1 2 3 255) = none :=
  ⟨⟨by decide, by decide⟩,
    alphaCompose_semitransparent_asserts ⟨1, 1, [12345]⟩
      (to_rgba 10 20 30 128) (to_rgba 1 2 3 255) (by decide) (by decide)⟩

/-- C1: in an opaque-background `AlphaComposeBackground` call, every pixel
whose alpha `a` is not 255 has each color channel replaced by the integer
truncation of `sqrt((srcChannel^2 * a + backdropLinearChannel * (255 - a))
/ 255)` — the backdrop linear channel being the chosen backdrop's 8-bit
channel value squared, the division being integer division — packed with
alpha forced to 255; every pixel whose alpha is already 255 stays
byte-identical. `d` names the backdrop pixel chosen for `(x, y)`. -/
theorem alphaCompose_blend_formula (fb fb2 : Framebuffer)
    (bgcolor pattern_col d : Nat) (x y : Nat)
    (hwf : fb.Wf) (hx : x < fb.width) (hy : y < fb.height)
    (hbga : alphaOf bgcolor = 255)
    (hd : d = if alphaOf pattern_col = 255 ∧ (x + y) % 2 ≠ 0 then pattern_col
      else bgcolor)
    (hc : fb.AlphaComposeBackground bgcolor pattern_col = some fb2) :
    (alphaOf (fb.at ↑x ↑y) = 255 → fb2.at ↑x ↑y = fb.at ↑x ↑y) ∧
    (alphaOf (fb.at ↑x ↑y) ≠ 255 →
      fb2.at ↑x ↑y =
        to_rgba
          (Nat.sqrt ((chanOf (fb.at ↑x ↑y) 0 * chanOf (fb.at ↑x ↑y) 0 *
              alphaOf (fb.at ↑x ↑y) +
            chanOf d 0 * chanOf d 0 * (255 - alphaOf (fb.at ↑x ↑y))) / 255))
          (Nat.sqrt ((chanOf (fb.at ↑x ↑y) 1 * chanOf (fb.at ↑x ↑y) 1 *
              alphaOf (fb.at ↑x ↑y) +
            chanOf d 1 * chanOf d 1 * (255 - alphaOf (fb.at ↑x ↑y))) / 255))
          (Nat.sqrt ((chanOf (fb.at ↑x ↑y) 2 * chanOf (fb.at ↑x ↑y) 2 *
              alphaOf (fb.at ↑x ↑y) +
            chanOf d 2 * chanOf d 2 * (255 - alphaOf (fb.at ↑x ↑y))) / 255))
          255) := by
  unfold alphaOf at hbga
  have hat := alphaCompose_at fb fb2 bgcolor pattern_col x y hwf hx hy hbga hc
  have hbgd : bgChoiceSpec bgcolor pattern_col ((x + y) % 2) = linear3 d := by
    unfold alphaOf at hd
    unfold bgChoiceSpec
    by_cases hcond : pattern_col % 2 ^ 32 / 2 ^ 24 = 255 ∧ (x + y) % 2 ≠ 0
    · rw [if_pos hcond, hd, if_pos hcond]
    · rw [if_neg hcond, hd, if_neg hcond]
  constructor
  · intro ha
    rw [hat, alphaBlend_opaque _ _ ha]
  · intro ha
    rw [hat, hbgd, alphaBlend_formula _ _ ha, linear3_fst, linear3_snd_fst,
      linear3_snd_snd]

set_option maxRecDepth 10000 in
theorem alphaCompose_blend_formula_witness :
    alphaOf (to_rgba 100 150 200 128) ≠ 255 ∧
      (Framebuffer.at
        ((Framebuffer.AlphaComposeBackground ⟨1, 1, [to_rgba 100 150 200 128]⟩
          (to_rgba 10 20 30 255) (to_rgba 40 50 60 255)).getD ⟨0, 0, []⟩) 0 0 =
        to_rgba
          (Nat.sqrt ((chanOf (to_rgba 100 150 200 128) 0 *
              chanOf (to_rgba 100 150 200 128) 0 *
              alphaOf (to_rgba 100 150 200 128) +
            chanOf (to_rgba 10 20 30 255) 0 * chanOf (to_rgba 10 20 30 255) 0 *
              (255 - alphaOf (to_rgba 100 150 200 128))) / 255))
          (Nat.sqrt ((chanOf (to_rgba 100 150 200 128) 1 *
              chanOf (to_rgba 100 150 200 128) 1 *
              alphaOf (to_rgba 100 150 200 128) +
            chanOf (to_rgba 10 20 30 255) 1 * chanOf (to_rgba 10 20 30 255) 1 *
              (255 - alphaOf (to_rgba 100 150 200 128))) / 255))
          (Nat.sqrt ((chanOf (to_rgba 100 150 200 128) 2 *
              chanOf (to_rgba 100 150 200 128) 2 *
              alphaOf (to_rgba 100 150 200 128) +
            chanOf (to_rgba 10 20 30 255) 2 * chanOf (to_rgba 10 20 30 255) 2 *
              (255 - alphaOf (to_rgba 100 150 200 128))) / 255))
          255) :=
  ⟨by decide,
    (alphaCompose_blend_formula ⟨1, 1, [to_rgba 100 150 200 128]⟩
        ((Framebuffer.AlphaComposeBackground ⟨1, 1, [to_rgba 100 150 200 128]⟩
          (to_rgba 10 20 30 255) (to_rgba 40 50 60 255)).getD ⟨0, 0, []⟩)
        (to_rgba 10 20 30 255) (to_rgba 40 50 60 255) (to_rgba 10 20 30 255)
        0 0 (by decide) (by decide) (by decide) (by decide) (by decide)
        (by decide)).2 (by decide)⟩

/-- C2: in an opaque-background `AlphaComposeBackground` call, if the
pattern pixel has alpha 255 the backdrop for the pixel at `(x, y)` is the
background when `(x + y)` is even and the pattern when it is odd; if the
pattern pixel is not fully opaque every pixel uses the background as
backdrop; and every stored pixel whose alpha was 0 becomes exactly the
chosen backdrop color (`db`) with alpha forced to 255. -/
theorem alphaCompose_backdrop_choice (fb fb2 : Framebuffer)
    (bgcolor pattern_col db : Nat) (x y : Nat)
    (hwf : fb.Wf) (hx : x < fb.width) (hy : y < fb.height)
    (hbga : alphaOf bgcolor = 255)
    (hdb : db = if alphaOf pattern_col = 255 ∧ (x + y) % 2 ≠ 0 then
      pattern_col else bgcolor)
    (hc : fb.AlphaComposeBackground bgcolor pattern_col = some fb2) :
    (alphaOf pattern_col = 255 →
      fb2.at ↑x ↑y =
        AlphaBlend (linear3 (if (x + y) % 2 = 0 then bgcolor else pattern_col))
          (fb.at ↑x ↑y)) ∧
    (alphaOf pattern_col ≠ 255 →
      fb2.at ↑x ↑y = AlphaBlend (linear3 bgcolor) (fb.at ↑x ↑y)) ∧
    (alphaOf (fb.at ↑x ↑y) = 0 →
      fb2.at ↑x ↑y =
        to_rgba (chanOf db 0) (chanOf db 1) (chanOf db 2) 255) := by
  unfold alphaOf at hbga
  have hat := alphaCompose_at fb fb2 bgcolor pattern_col x y hwf hx hy hbga hc
  have hbgd : bgChoiceSpec bgcolor pattern_col ((x + y) % 2) = linear3 db := by
    unfold alphaOf at hdb
    unfold bgChoiceSpec
    by_cases hcond : pattern_col % 2 ^ 32 / 2 ^ 24 = 255 ∧ (x + y) % 2 ≠ 0
    · rw [if_pos hcond, hdb, if_pos hcond]
    · rw [if_neg hcond, hdb, if_neg hcond]
  refine ⟨?_, ?_, ?_⟩
  · intro hp
    unfold alphaOf at hp
    rw [hat]
    congr 1
    unfold bgChoiceSpec
    by_cases hpar : (x + y) % 2 = 0
    · rw [if_neg (fun hcontra => hcontra.2 hpar), if_pos hpar]
    · rw [if_pos ⟨hp, hpar⟩, if_neg hpar]
  · intro hp
    unfold alphaOf at hp
    rw [hat]
    congr 1
    unfold bgChoiceSpec
    rw [if_neg (fun hcontra => hp hcontra.1)]
  · intro ha0
    have hane : alphaOf (fb.at ↑x ↑y) ≠ 255 := by rw [ha0]; decide
    rw [hat, hbgd, alphaBlend_formula _ _ hane, linear3_fst, linear3_snd_fst,
      linear3_snd_snd, ha0]
    simp only [Nat.mul_zero, Nat.zero_add, Nat.sub_zero, mul255_div,
      Nat.sqrt_eq]

set_option maxRecDepth 10000 in
theorem alphaCompose_backdrop_choice_witness :
    alphaOf (to_rgba 0 0 0 0) = 0 ∧
      (Framebuffer.at
        ((Framebuffer.AlphaComposeBackground
          ⟨1, 2, [to_rgba 0 0 0 0, to_rgba 0 0 0 0]⟩
          (to_rgba 10 20 30 255) (to_rgba 40 50 60 255)).getD ⟨0, 0, []⟩) 0 1 =
        to_rgba (chanOf (to_rgba 40 50 60 255) 0)
          (chanOf (to_rgba 40 50 60 255) 1)
          (chanOf (to_rgba 40 50 60 255) 2) 255) :=
  ⟨by decide,
    (alphaCompose_backdrop_choice ⟨1, 2, [to_rgba 0 0 0 0, to_rgba 0 0 0 0]⟩
        ((Framebuffer.AlphaComposeBackground
          ⟨1, 2, [to_rgba 0 0 0 0, to_rgba 0 0 0 0]⟩
          (to_rgba 10 20 30 255) (to_rgba 40 50 60 255)).getD ⟨0, 0, []⟩)
        (to_rgba 10 20 30 255) (to_rgba 40 50 60 255) (to_rgba 40 50 60 255)
        0 1 (by decide) (by decide) (by decide) (by decide) (by decide)
        (by decide)).2.2 (by decide)⟩

theorem chanOf_to_rgba_zero (r g b a : Nat) :
    chanOf (to_rgba r g b a) 0 = r % 256 := by
  unfold chanOf to_rgba
  norm_num
  omega

theorem chanOf_to_rgba_one (r g b a : Nat) :
    chanOf (to_rgba r g b a) 1 = g % 256 := by
  unfold chanOf to_rgba
  norm_num
  omega

theorem chanOf_to_rgba_two (r g b a : Nat) :
    chanOf (to_rgba r g b a) 2 = b % 256 := by
  unfold chanOf to_rgba
  norm_num
  omega

theorem alphaOf_to_rgba (r g b a : Nat) :
    alphaOf (to_rgba r g b a) = a % 256 := by
  unfold alphaOf to_rgba
  norm_num
  omega

/-- Any successfully parsed color string yields an opaque pixel. -/
theorem parseColor_success_alpha (s : String)
    (h : (ParseColor (some s)).diagnostic = false) :
    alphaOf (ParseColor (some s)).pixel = 255 := by
  unfold ParseColor at h ⊢
  rcases hfind : html_colors.find? (fun c => strcasecmpEq s c.1) with _ | c
  all_goals simp only [hfind] at h ⊢
  · rcases hp : parseNumeric s with _ | ⟨r, g, b⟩
    · simp only [hp] at h
      exact Bool.noConfusion h
    · simp only [hp]
      rw [alphaOf_to_rgba]
  · rcases hp : parseNumeric c.2 with _ | ⟨r, g, b⟩
    · simp only [hp] at h
      exact Bool.noConfusion h
    · simp only [hp]
      rw [alphaOf_to_rgba]

theorem litChar_eq_some (ch : Char) (l r : List Char)
    (h : litChar ch l = some r) : l = ch :: r := by
  match l with
  | [] => exact Option.noConfusion h
  | c :: rest =>
    simp only [litChar] at h
    by_cases hc : c = ch
    · rw [if_pos hc] at h
      injection h with h2
      rw [hc, h2]
    · rw [if_neg hc] at h
      exact Option.noConfusion h

theorem scanRgbDec_shape (l : List Char) (v : Int × Int × Int)
    (h : scanRgbDec l = some v) :
    ∃ t, l = 'r' :: 'g' :: 'b' :: '(' :: t := by
  unfold scanRgbDec at h
  rcases h1 : litChar 'r' l with _ | s1
  · simp only [h1] at h
    exact Option.noConfusion h
  simp only [h1] at h
  rcases h2 : litChar 'g' s1 with _ | s2
  · simp only [h2] at h
    exact Option.noConfusion h
  simp only [h2] at h
  rcases h3 : litChar 'b' s2 with _ | s3
  · simp only [h3] at h
    exact Option.noConfusion h
  simp only [h3] at h
  rcases h4 : litChar '(' s3 with _ | s4
  · simp only [h4] at h
    exact Option.noConfusion h
  refine ⟨s4, ?_⟩
  rw [litChar_eq_some _ _ _ h1, litChar_eq_some _ _ _ h2,
    litChar_eq_some _ _ _ h3, litChar_eq_some _ _ _ h4]

theorem caseEq_rgb_red (t : List Char) :
    caseEqChars ('r' :: 'g' :: 'b' :: '(' :: t) ['r', 'e', 'd'] = false := by
  have hge : ('g'.toLower == 'e'.toLower) = false := by decide
  simp only [caseEqChars, hge, Bool.false_and, Bool.and_false]

theorem find_red_none (s : String) (t : List Char)
    (hshape : s.data = 'r' :: 'g' :: 'b' :: '(' :: t) :
    html_colors.find? (fun c => strcasecmpEq s c.1) = none := by
  have hp : strcasecmpEq s "red" = false := by
    unfold strcasecmpEq
    rw [hshape]
    exact caseEq_rgb_red t
  simp [html_colors, List.find?, hp]

/-- C10: every decimal `rgb(R, G, B)` input accepted by the grammar
parses successfully (no diagnostic) and each channel of the returned pixel
is the component reduced modulo 256 (wrapped, never clamped), with alpha
255; e.g. `ParseColor("rgb(300, 0, 0)")` gives the pixel
`(44, 0, 0, 255)`. -/
theorem parseColor_rgb_wraps (s : String) (r g b : Int)
    (hdec : scanRgbDec s.data = some (r, g, b))
    (hr : 0 ≤ r) (hg : 0 ≤ g) (hb : 0 ≤ b) :
    (ParseColor (some s)).diagnostic = false ∧
    chanOf (ParseColor (some s)).pixel 0 = r.toNat % 256 ∧
    chanOf (ParseColor (some s)).pixel 1 = g.toNat % 256 ∧
    chanOf (ParseColor (some s)).pixel 2 = b.toNat % 256 ∧
    alphaOf (ParseColor (some s)).pixel = 255 := by
  obtain ⟨t, ht⟩ := scanRgbDec_shape s.data (r, g, b) hdec
  have hfind := find_red_none s t ht
  have hhash : scanHashColor s.data = none := by
    rw [ht]
    unfold scanHashColor
    rw [show litChar '#' ('r' :: 'g' :: 'b' :: '(' :: t) = none from by
      simp only [litChar]
      rw [if_neg (by decide)]]
  have hparse : parseNumeric s =
      some ((r % (2 ^ 32 : Int)).toNat, (g % (2 ^ 32 : Int)).toNat,
        (b % (2 ^ 32 : Int)).toNat) := by
    unfold parseNumeric
    simp only [hhash, hdec]
  unfold ParseColor
  simp only [hfind, hparse]
  refine ⟨trivial, ?_, ?_, ?_, ?_⟩
  · rw [chanOf_to_rgba_zero]
    norm_num
    omega
  · rw [chanOf_to_rgba_one]
    norm_num
    omega
  · rw [chanOf_to_rgba_two]
    norm_num
    omega
  · rw [alphaOf_to_rgba]

/-- C3 counterexample: `ParseColor` on the empty string does emit the
unparsed-input diagnostic (the empty string matches no named color and no
sscanf pattern, reaching the `fprintf` fallback), contradicting the
claim that empty input produces no diagnostic. -/
theorem parseColor_empty_emits_diagnostic :
    (ParseColor (some "")).diagnostic = true := by decide

/-- C3 (amended): absent (null) input returns the zero pixel `(0,0,0,0)`
with no diagnostic; empty-string input also returns the zero pixel but
emits the diagnostic. -/
theorem parseColor_absent_empty :
    ParseColor none = { pixel := to_rgba 0 0 0 0, diagnostic := false } ∧
    ParseColor (some "") = { pixel := to_rgba 0 0 0 0, diagnostic := true } :=
  ⟨rfl, by decide⟩

/-- C4: the hex form `#ff0000`, the decimal form `rgb(255, 0, 0)`, the
hex-integer form `rgb(0xff, 0x00, 0x00)` and the named color `red`
(case-insensitively) all parse to the identical fully opaque pixel
`(255,0,0,255)`; and every successfully parsed textual color has its
alpha channel forced to 255. -/
theorem parseColor_red_forms :
    (ParseColor (some "#ff0000")).pixel = to_rgba 255 0 0 255 ∧
    (ParseColor (some "rgb(255, 0, 0)")).pixel = to_rgba 255 0 0 255 ∧
    (ParseColor (some "rgb(0xff, 0x00, 0x00)")).pixel = to_rgba 255 0 0 255 ∧
    (ParseColor (some "red")).pixel = to_rgba 255 0 0 255 ∧
    (ParseColor (some "RED")).pixel = to_rgba 255 0 0 255 ∧
    ∀ s : String, (ParseColor (some s)).diagnostic = false →
      alphaOf (ParseColor (some s)).pixel = 255 :=
  ⟨by decide, by decide, by decide, by decide, by decide,
    fun s h => parseColor_success_alpha s h⟩

theorem parseColor_red_forms_witness :
    (ParseColor (some "#336699")).diagnostic = false ∧
      alphaOf (ParseColor (some "#336699")).pixel = 255 :=
  ⟨by decide, parseColor_red_forms.2.2.2.2.2 "#336699" (by decide)⟩

theorem parseColor_rgb_wraps_witness :
    (scanRgbDec "rgb(300, 0, 0)".data = some (300, 0, 0) ∧
        (0 : Int) ≤ 300) ∧
      (ParseColor (some "rgb(300, 0, 0)")).diagnostic = false ∧
      chanOf (ParseColor (some "rgb(300, 0, 0)")).pixel 0 = 44 :=
  ⟨⟨by decide, by decide⟩,
    (parseColor_rgb_wraps "rgb(300, 0, 0)" 300 0 0 (by decide) (by decide)
      (by decide) (by decide)).1,
    (parseColor_rgb_wraps "rgb(300, 0, 0)" 300 0 0 (by decide) (by decide)
      (by decide) (by decide)).2.1⟩

end Timg
